import Mathlib

/-!
Verification development for the seo-tag-helper repository.

Part 1 embeds the in-memory job scheduler (`backend/src/queue/InMemoryQueue.ts`)
as a labelled transition system: the queue is the list of jobs in insertion
order (a JS `Map` iterates in insertion order), and the single `processQueue`
loop (guarded by the `processing` flag, which is set synchronously before the
first suspension point, so at most one loop instance ever runs) is modelled by
a program counter.  Suspension points of the async code (`await executeJob`,
`await delay`) delimit the atomic steps.

Part 2 embeds the bounded crawler and recommendation engine
(`LightweightScraper`).  The rendering collaborator (browser page visit) is an
oracle `render : String → Except String PageData`: `.ok` is a successful visit
returning the facts extracted by `page.evaluate`, `.error` is a navigation
timeout / render error with its message, caught by the per-page `catch` block.
-/

/-! ## Job scheduler data model (`backend/src/types`, `InMemoryQueue.ts`) -/

/-- Job payload, `ScanJob` in `types/index.ts`. -/
structure ScanJob where
  sessionId : String
  url : String
deriving DecidableEq, Repr

/-- The four job states of `QueueJob.status`. -/
inductive JobStatus where
  | pending
  | processing
  | completed
  | failed
deriving DecidableEq, Repr

/-- `QueueJob` from `types/index.ts`; `createdAt` is a timestamp in
milliseconds (`Date.getTime()`), `id` stands for the `crypto.randomUUID()`
string. -/
structure QueueJob where
  id : Nat
  data : ScanJob
  status : JobStatus
  createdAt : Nat
  attempts : Nat
deriving DecidableEq, Repr

/-- The job freshly inserted by `InMemoryQueue.add` (lines 17-23). -/
def mkJob (i : Nat) (d : ScanJob) (t : Nat) : QueueJob :=
  { id := i, data := d, status := JobStatus.pending, createdAt := t, attempts := 0 }

/-- Snapshot returned by `InMemoryQueue.getQueueStats`. -/
structure QueueStats where
  total : Nat
  pending : Nat
  processing : Nat
  completed : Nat
  failed : Nat
deriving DecidableEq, Repr

/-- `InMemoryQueue.getQueueStats` (lines 37-46): counts by filtering the job
list on each status. -/
def getQueueStats (q : List QueueJob) : QueueStats :=
  { total := q.length
    pending := (q.filter (fun j => j.status = JobStatus.pending)).length
    processing := (q.filter (fun j => j.status = JobStatus.processing)).length
    completed := (q.filter (fun j => j.status = JobStatus.completed)).length
    failed := (q.filter (fun j => j.status = JobStatus.failed)).length }

/-- The sort comparator of line 54: `a.createdAt.getTime() - b.createdAt.getTime()`
keeps `a` before `b` exactly when `a.createdAt ≤ b.createdAt`. -/
def jobLE (a b : QueueJob) : Bool := a.createdAt ≤ b.createdAt

/-- The job selection of the processing loop (lines 52-58): keep the pending
jobs, sort them by `createdAt` (JS `Array.prototype.sort` is stable, so ties
keep insertion order), and take the first. -/
def selectJob (q : List QueueJob) : Option QueueJob :=
  ((q.filter (fun j => j.status = JobStatus.pending)).mergeSort jobLE).head?

/-- Update every job with the given id (the in-place mutation of the job
object held in the map). -/
def setJob (q : List QueueJob) (i : Nat) (f : QueueJob → QueueJob) : List QueueJob :=
  q.map (fun j => if j.id = i then f j else j)

/-- Lookup of a job by id (`InMemoryQueue.getJobStatus`). -/
def findJob (q : List QueueJob) (i : Nat) : Option QueueJob :=
  q.find? (fun j => j.id = i)

/-- Control position of the unique `processQueue` execution.  `idle` means the
`processing` flag is false; `executing i` is the suspension inside
`await this.executeJob(job)` for the job with id `i`; `waitingRetry` is the
suspension inside `await this.delay(5000)` after a retryable failure. -/
inductive SchedPC where
  | idle
  | loopTop
  | executing (i : Nat)
  | waitingRetry
deriving DecidableEq, Repr

/-- Scheduler state: the job map (in insertion order) plus the loop position. -/
structure SchedState where
  queue : List QueueJob
  pc : SchedPC
deriving DecidableEq, Repr

/-- Initial state: empty map, `processing` flag false. -/
def schedInit : SchedState := { queue := [], pc := SchedPC.idle }

/-- One atomic step of the scheduler, between suspension points of the JS
event loop.  `addIdle`/`addBusy` are `add` (lines 14-31): a fresh-id pending
job is appended; when the `processing` flag is false this starts
`processQueue`.  `pick` is lines 51-59, `exitLoop` lines 51-56 and 93,
`succeed` lines 64-71, `failRetry` lines 73-80, `failFinal` lines 73-89,
`retryDone` the end of the 5s delay, and `evict` the deferred
`this.queue.delete` of a terminal job (lines 69-71, 86-88, and `cleanup`). -/
inductive SchedStep : SchedState → SchedState → Prop where
  | addIdle (s : SchedState) (i : Nat) (d : ScanJob) (t : Nat) :
      s.pc = SchedPC.idle →
      (∀ k ∈ s.queue, k.id ≠ i) →
      SchedStep s { queue := s.queue ++ [mkJob i d t], pc := SchedPC.loopTop }
  | addBusy (s : SchedState) (i : Nat) (d : ScanJob) (t : Nat) :
      s.pc ≠ SchedPC.idle →
      (∀ k ∈ s.queue, k.id ≠ i) →
      SchedStep s { queue := s.queue ++ [mkJob i d t], pc := s.pc }
  | pick (s : SchedState) (j : QueueJob) :
      s.pc = SchedPC.loopTop →
      selectJob s.queue = some j →
      SchedStep s { queue := setJob s.queue j.id (fun k => { k with status := JobStatus.processing })
                    pc := SchedPC.executing j.id }
  | exitLoop (s : SchedState) :
      s.pc = SchedPC.loopTop →
      selectJob s.queue = none →
      SchedStep s { queue := s.queue, pc := SchedPC.idle }
  | succeed (s : SchedState) (i : Nat) :
      s.pc = SchedPC.executing i →
      SchedStep s { queue := setJob s.queue i (fun k => { k with status := JobStatus.completed })
                    pc := SchedPC.loopTop }
  | failRetry (s : SchedState) (i : Nat) (j : QueueJob) :
      s.pc = SchedPC.executing i →
      findJob s.queue i = some j →
      j.attempts + 1 < 3 →
      SchedStep s { queue := setJob s.queue i
                      (fun k => { k with attempts := k.attempts + 1, status := JobStatus.pending })
                    pc := SchedPC.waitingRetry }
  | failFinal (s : SchedState) (i : Nat) (j : QueueJob) :
      s.pc = SchedPC.executing i →
      findJob s.queue i = some j →
      3 ≤ j.attempts + 1 →
      SchedStep s { queue := setJob s.queue i
                      (fun k => { k with attempts := k.attempts + 1, status := JobStatus.failed })
                    pc := SchedPC.loopTop }
  | retryDone (s : SchedState) :
      s.pc = SchedPC.waitingRetry →
      SchedStep s { queue := s.queue, pc := SchedPC.loopTop }
  | evict (s : SchedState) (i : Nat) (j : QueueJob) :
      findJob s.queue i = some j →
      (j.status = JobStatus.completed ∨ j.status = JobStatus.failed) →
      SchedStep s { queue := s.queue.filter (fun k => k.id ≠ i), pc := s.pc }

/-- States reachable from the initial scheduler state by any interleaving of
submissions, loop steps and evictions. -/
inductive SchedReachable : SchedState → Prop where
  | init : SchedReachable schedInit
  | step {s t : SchedState} : SchedReachable s → SchedStep s t → SchedReachable t

/-! ## Crawler data model (`LightweightScraper`) -/

/-- A raw image extracted by `page.evaluate` (src plus current alt text). -/
structure ImageInfo where
  src : String
  currentAlt : String
deriving DecidableEq, Repr

/-- Headings extracted by `page.evaluate`. -/
structure Headings where
  h1 : List String
  h2 : List String
  h3 : List String
deriving DecidableEq, Repr

/-- The facts returned by one successful page visit (the object built at the
end of `page.evaluate`, lines 173-181): title, meta description, headings,
images, word count, the derived `hasContent` flag and the internal links
(already origin-filtered, deduplicated and capped at 10 by the extraction). -/
structure PageData where
  title : String
  metaDescription : String
  headings : Headings
  images : List ImageInfo
  wordCount : Nat
  hasContent : Bool
  internalLinks : List String
deriving DecidableEq, Repr

/-- The three priority levels of a recommendation. -/
inductive PriorityLevel where
  | high
  | medium
  | low
deriving DecidableEq, Repr

/-- The recommendation record produced per page. -/
structure Recommendation where
  title : String
  metaDescription : String
  priority : PriorityLevel
deriving DecidableEq, Repr

/-- An image in the scan output, with the suggested alt text attached. -/
structure ImageRec where
  src : String
  currentAlt : String
  recommendedAlt : String
deriving DecidableEq, Repr

/-- One entry of `ScanData.pages`: the page facts plus recommendations. -/
structure PageRecord where
  url : String
  title : String
  metaDescription : String
  headings : Headings
  images : List ImageRec
  wordCount : Nat
  hasContent : Bool
  internalLinks : List String
  recommendations : Recommendation
deriving DecidableEq, Repr

/-- An entry of `ScanData.errors`. -/
structure ScanError where
  url : String
  reason : String
deriving DecidableEq, Repr

/-- The aggregate `ScanData` from `types/index.ts`. -/
structure ScanData where
  pages : List PageRecord
  totalPages : Nat
  pagesProcessed : Nat
  pagesSkipped : Nat
  errors : List ScanError
  completedAt : Option String
deriving DecidableEq, Repr

/-- The crawl-local state: the aggregate plus the visited-URL set (the
`visitedUrls : Set<string>` threaded through `scanPage`).  The class field
`this.pagesProcessed` and `scanData.pagesProcessed` are kept equal by the code
(line 199 copies the former into the latter right after each increment), so a
single counter represents both. -/
structure CrawlState where
  data : ScanData
  visited : List String
deriving DecidableEq, Repr

/-- The page ceiling `this.maxPages` (line 8). -/
def maxPages : Nat := 50

/-- JS falsy-or on strings: `a || b`. -/
def jsOr (a b : String) : String := if a = "" then b else a

/-- `LightweightScraper.optimizeTitle` (lines 256-269). -/
def optimizeTitle (current : String) (h1 : Option String) : String :=
  if current = "" ∨ current.length < 30 then
    match h1 with
    | some h =>
        if 0 < h.length then
          if 50 < h.length then h.take 50 ++ "..." else h ++ " | Your Brand"
        else "Untitled Page | Your Brand"
    | none => "Untitled Page | Your Brand"
  else if 60 < current.length then current.take 57 ++ "..."
  else current

/-- `LightweightScraper.optimizeDescription` (lines 271-283). -/
def optimizeDescription (current title : String) (h1 : Option String) : String :=
  if current = "" ∨ current.length < 120 then
    let baseText := jsOr (h1.getD "") (jsOr title "Learn more about this page")
    let description := baseText ++ ". Discover comprehensive information and insights."
    if 160 < description.length then description.take 157 ++ "..." else description
  else if 160 < current.length then current.take 157 ++ "..."
  else current

/-- `LightweightScraper.calculatePriority` (lines 285-317): accumulate a
defect score, then map it to a priority level. -/
def calculatePriority (pd : PageData) : PriorityLevel :=
  let score : Nat := 0
  let score := if pd.title = "" ∨ pd.title.length < 30 ∨ 60 < pd.title.length then score + 2 else score
  let score := if pd.metaDescription = "" ∨ pd.metaDescription.length < 120 ∨ 160 < pd.metaDescription.length then score + 2 else score
  let score := if ¬ pd.hasContent then score + 3 else score
  let score := if pd.headings.h1.length = 0 then score + 1 else score
  let imagesWithoutAlt := (pd.images.filter (fun img => img.currentAlt = "")).length
  let score := if 0 < imagesWithoutAlt then score + min imagesWithoutAlt 2 else score
  if 5 ≤ score then PriorityLevel.high
  else if 2 ≤ score then PriorityLevel.medium
  else PriorityLevel.low

/-- `LightweightScraper.generateRecommendations` (lines 233-254). -/
def generateRecommendations (pd : PageData) : Recommendation :=
  let titleLength := pd.title.length
  let descLength := pd.metaDescription.length
  let optimizedTitle :=
    if titleLength < 30 ∨ 60 < titleLength then optimizeTitle pd.title pd.headings.h1.head?
    else pd.title
  let optimizedDescription :=
    if descLength < 120 ∨ 160 < descLength then
      optimizeDescription pd.metaDescription pd.title pd.headings.h1.head?
    else pd.metaDescription
  { title := optimizedTitle, metaDescription := optimizedDescription
    priority := calculatePriority pd }

/-- `LightweightScraper.generateAltText` (lines 319-331): filename stem,
separators to spaces, lowercased, suffixed with the page title, capped at
100 characters. -/
def generateAltText (src : String) (pd : PageData) : String :=
  let stem := (((src.splitOn "/").getLast?.getD "").splitOn ".").headD ""
  let filename := if stem = "" then "image" else stem
  let cleaned := (filename.map (fun c => if c = '-' ∨ c = '_' then ' ' else c)).toLower
  let pageTitle := jsOr pd.title "page"
  (cleaned ++ " on " ++ pageTitle).take 100

/-- The record pushed onto `scanData.pages` on a successful visit
(lines 188-196). -/
def mkPageRecord (url : String) (pd : PageData) : PageRecord :=
  { url := url
    title := pd.title
    metaDescription := pd.metaDescription
    headings := pd.headings
    images := pd.images.map (fun img =>
      { src := img.src, currentAlt := img.currentAlt
        recommendedAlt := generateAltText img.src pd })
    wordCount := pd.wordCount
    hasContent := pd.hasContent
    internalLinks := pd.internalLinks
    recommendations := generateRecommendations pd }

/-- Effect of the successful branch on the aggregate (lines 188-199). -/
def recordSuccess (url : String) (pd : PageData) (st : CrawlState) : CrawlState :=
  { visited := st.visited
    data := { st.data with
      pages := st.data.pages ++ [mkPageRecord url pd]
      pagesProcessed := st.data.pagesProcessed + 1 } }

/-- Effect of the `catch` branch on the aggregate (lines 221-227). -/
def recordFailure (url reason : String) (st : CrawlState) : CrawlState :=
  { visited := st.visited
    data := { st.data with
      errors := st.data.errors ++ [{ url := url, reason := reason }]
      pagesSkipped := st.data.pagesSkipped + 1 } }

/-- The loop over a page's internal links (lines 214-218): visit each link in
order, but only while the processed-page counter is below the ceiling. -/
def childFold (visit : String → CrawlState → CrawlState) (links : List String) (st : CrawlState) : CrawlState :=
  links.foldl (fun s link => if s.data.pagesProcessed < maxPages then visit link s else s) st

/-- `LightweightScraper.scanPage` (lines 82-231).  The extra fuel argument
only bounds the recursion depth for Lean; `scanPage_fuel_congr` below shows
any fuel above the link-expansion ceiling gives the same result, so the fuel-0
branch is never taken from `scanWebsite`. -/
def scanPage (render : String → Except String PageData) :
    Nat → String → Nat → CrawlState → CrawlState
  | 0, _, _, st => st
  | fuel + 1, url, depth, st =>
    if url ∈ st.visited ∨ 3 < depth ∨ maxPages ≤ st.data.pagesProcessed then st
    else
      let st1 : CrawlState := { st with visited := url :: st.visited }
      match render url with
      | Except.error reason => recordFailure url reason st1
      | Except.ok pd =>
        let st2 := recordSuccess url pd st1
        if depth < 2 ∧ 0 < pd.internalLinks.length then
          childFold (fun link s => scanPage render fuel link (depth + 1) s)
            (pd.internalLinks.take 5) st2
        else st2

/-- The empty aggregate built at lines 35-41. -/
def initialScanData : ScanData :=
  { pages := [], totalPages := 0, pagesProcessed := 0, pagesSkipped := 0
    errors := [], completedAt := none }

/-- The crawl-local state at the start of `scanWebsite`: empty aggregate,
empty visited set. -/
def crawlInit : CrawlState := { data := initialScanData, visited := [] }

/-- `LightweightScraper.scanWebsite` (lines 10-80) restricted to the crawl
itself: run `scanPage` from the seed at depth 0 with an empty visited set,
then finalize `completedAt` and `totalPages` (lines 50-51).  Fuel 3 suffices:
expansion stops at depth 2. -/
def scanWebsite (render : String → Except String PageData) (url : String) : ScanData :=
  let st := scanPage render 3 url 0 crawlInit
  { st.data with
    completedAt := some "completedAt"
    totalPages := st.data.pages.length + st.data.pagesSkipped }

/-! ## Derived notions used by the statements -/

/-- The URLs contributing a record to the aggregate: one per page entry plus
one per error entry. -/
def recordUrls (d : ScanData) : List String :=
  d.pages.map PageRecord.url ++ d.errors.map ScanError.url

/-- Upper bound on how many new URLs one `scanPage` call can visit: the page
itself plus, beneath the link-expansion ceiling, five children each. -/
def visitBound : Nat → Nat → Nat
  | 0, _ => 0
  | fuel + 1, depth => 1 + (if depth < 2 then 5 * visitBound fuel (depth + 1) else 0)

/-- Per-job part of the scheduler invariant: the attempts counter is bounded
by the retry ceiling, `failed` exactly at the ceiling, and a pending or
mid-execution job still has retries left. -/
def attemptsOk (j : QueueJob) : Prop :=
  j.attempts ≤ 3 ∧ (j.status = JobStatus.failed ↔ j.attempts = 3)
  ∧ (j.status = JobStatus.pending → j.attempts < 3)
  ∧ (j.status = JobStatus.processing → j.attempts < 3)

/-- Control part of the scheduler invariant: while the loop is suspended in
`executeJob` for job `i`, exactly the job with id `i` is `processing`;
anywhere else no job is `processing`. -/
def procOk (s : SchedState) : Prop :=
  (∀ i, s.pc = SchedPC.executing i →
    (∃ j ∈ s.queue, j.id = i) ∧ ∀ j ∈ s.queue, (j.status = JobStatus.processing ↔ j.id = i))
  ∧ ((∀ i, s.pc ≠ SchedPC.executing i) → ∀ j ∈ s.queue, j.status ≠ JobStatus.processing)

/-- The inductive scheduler invariant: ids are distinct (`crypto.randomUUID`),
every job satisfies `attemptsOk`, and the processing marker tracks the loop. -/
def SchedInv (s : SchedState) : Prop :=
  (s.queue.map QueueJob.id).Nodup ∧ (∀ j ∈ s.queue, attemptsOk j) ∧ procOk s

/-! ## Claim-side definitions (worded from the spec, for comparison) -/

/-- Score as worded by the priority-scoring claim: +2 for a title outside
[30,60] (or absent), +2 for a description outside [120,160] (or absent), +3
without substantial content, +1 without H1, +1 per image missing alt text
capped at +2. -/
def claimPriorityScore (pd : PageData) : Nat :=
  (if pd.title = "" ∨ pd.title.length < 30 ∨ 60 < pd.title.length then 2 else 0)
  + (if pd.metaDescription = "" ∨ pd.metaDescription.length < 120 ∨ 160 < pd.metaDescription.length then 2 else 0)
  + (if pd.hasContent then 0 else 3)
  + (if pd.headings.h1 = [] then 1 else 0)
  + min (pd.images.filter (fun img => img.currentAlt = "")).length 2

/-- Priority as worded by the claim: `high` when the score is at least 5,
`medium` when at least 2, `low` otherwise. -/
def claimPriorityOf (pd : PageData) : PriorityLevel :=
  if 5 ≤ claimPriorityScore pd then PriorityLevel.high
  else if 2 ≤ claimPriorityScore pd then PriorityLevel.medium
  else PriorityLevel.low

/-- Optimized title as worded by the title-optimization claim: pass through
inside [30,60]; shorter than 30 (or empty) synthesize from the first H1,
truncated to 50 characters with the brand suffix appended, or a generic
fallback without H1; longer than 60 truncate to 57 plus an ellipsis marker. -/
def claimOptimizedTitle (pd : PageData) : String :=
  if 30 ≤ pd.title.length ∧ pd.title.length ≤ 60 then pd.title
  else if pd.title.length < 30 then
    match pd.headings.h1.head? with
    | some h => h.take 50 ++ " | Your Brand"
    | none => "Untitled Page | Your Brand"
  else pd.title.take 57 ++ "..."

/-- Optimized title as amended: when synthesizing from the first H1, an H1 of
more than 50 characters is truncated to 50 with an ellipsis marker appended
(no brand suffix), otherwise the brand suffix is appended to the whole H1. -/
def amendedOptimizedTitle (pd : PageData) : String :=
  if 30 ≤ pd.title.length ∧ pd.title.length ≤ 60 then pd.title
  else if pd.title.length < 30 then
    match pd.headings.h1.head? with
    | some h => if 50 < h.length then h.take 50 ++ "..." else h ++ " | Your Brand"
    | none => "Untitled Page | Your Brand"
  else pd.title.take 57 ++ "..."

/-! ## Concrete fixtures used by witnesses and counterexamples -/

/-- A concrete job as `add` would create it. -/
def jobA : QueueJob := mkJob 1 { sessionId := "s1", url := "https://example.com" } 5

/-- A rendering oracle on which every visit fails with a navigation
timeout. -/
def renderFail : String → Except String PageData := fun _ => Except.error "Navigation timeout"

/-- A small concrete page: in-window title, one H1, two internal links. -/
def pdPlain : PageData :=
  { title := "Welcome to the Example Store Homepage Today"
    metaDescription := ""
    headings := { h1 := ["Welcome"], h2 := [], h3 := [] }
    images := []
    wordCount := 80
    hasContent := true
    internalLinks := ["https://example.com/a", "https://example.com/b"] }

/-- A rendering oracle on which every visit succeeds with `pdPlain`. -/
def renderOk : String → Except String PageData := fun _ => Except.ok pdPlain

/-- A 51-character heading. -/
def longH1 : String := "AAAAAAAAAAAAAAAAAAAAAAAAAAAAAAAAAAAAAAAAAAAAAAAAAAA"

/-- A page with an empty title and a 51-character first H1. -/
def pdLongH1 : PageData :=
  { title := ""
    metaDescription := ""
    headings := { h1 := [longH1], h2 := [], h3 := [] }
    images := []
    wordCount := 0
    hasContent := false
    internalLinks := [] }

/-- A page with a short title and a short first H1. -/
def pdShortTitle : PageData :=
  { title := "Short"
    metaDescription := ""
    headings := { h1 := ["Welcome"], h2 := [], h3 := [] }
    images := []
    wordCount := 0
    hasContent := false
    internalLinks := [] }

/-! ## Scheduler lemmas -/

theorem jobLE_trans (a b c : QueueJob) (h1 : jobLE a b = true) (h2 : jobLE b c = true) :
    jobLE a c = true := by
  simp only [jobLE, decide_eq_true_eq] at h1 h2 ⊢
  omega

theorem jobLE_total (a b : QueueJob) : (jobLE a b || jobLE b a) = true := by
  simp only [jobLE, Bool.or_eq_true, decide_eq_true_eq]
  omega

theorem setJob_map_id (q : List QueueJob) (i : Nat) (f : QueueJob → QueueJob)
    (hf : ∀ j, (f j).id = j.id) :
    (setJob q i f).map QueueJob.id = q.map QueueJob.id := by
  induction q with
  | nil => rfl
  | cons a q ih =>
    simp only [setJob, List.map_cons] at ih ⊢
    rw [ih]
    congr 1
    split
    · exact hf a
    · rfl

theorem job_eq_of_id_eq {q : List QueueJob} {j k : QueueJob}
    (hnd : (q.map QueueJob.id).Nodup) (hj : j ∈ q) (hk : k ∈ q) (h : j.id = k.id) : j = k :=
  List.inj_on_of_nodup_map hnd hj hk h

theorem findJob_mem {q : List QueueJob} {i : Nat} {j : QueueJob}
    (h : findJob q i = some j) : j ∈ q ∧ j.id = i := by
  refine ⟨List.mem_of_find?_eq_some h, ?_⟩
  have h2 := List.find?_some h
  simpa using h2

theorem findJob_eq_of_mem {q : List QueueJob} {k : QueueJob} {i : Nat}
    (hnd : (q.map QueueJob.id).Nodup) (hk : k ∈ q) (hid : k.id = i) :
    findJob q i = some k := by
  induction q with
  | nil => cases hk
  | cons a q ih =>
    simp only [List.map_cons, List.nodup_cons] at hnd
    by_cases ha : a.id = i
    · have hka : k = a := by
        rcases List.mem_cons.mp hk with h | h
        · exact h
        · have hmem : k.id ∈ q.map QueueJob.id := List.mem_map_of_mem QueueJob.id h
          rw [hid, ← ha] at hmem
          exact absurd hmem hnd.1
      simp [findJob, List.find?_cons, ha, hka]
    · have hk2 : k ∈ q := by
        rcases List.mem_cons.mp hk with h | h
        · subst h; exact absurd hid ha
        · exact h
      simpa [findJob, List.find?_cons, ha] using ih hnd.2 hk2

theorem selectJob_mem {q : List QueueJob} {j : QueueJob} (h : selectJob q = some j) :
    j ∈ q ∧ j.status = JobStatus.pending := by
  have hm : j ∈ (q.filter (fun j => j.status = JobStatus.pending)).mergeSort jobLE :=
    List.mem_of_mem_head? (Option.mem_def.mpr h)
  rw [List.mem_mergeSort, List.mem_filter] at hm
  exact ⟨hm.1, by simpa using hm.2⟩

theorem selectJob_min {q : List QueueJob} {j : QueueJob} (h : selectJob q = some j) :
    ∀ k ∈ q, k.status = JobStatus.pending → j.createdAt ≤ k.createdAt := by
  intro k hk hkp
  have hs := List.sorted_mergeSort jobLE_trans jobLE_total
    (q.filter (fun j => j.status = JobStatus.pending))
  have hkL : k ∈ (q.filter (fun j => j.status = JobStatus.pending)).mergeSort jobLE := by
    rw [List.mem_mergeSort, List.mem_filter]
    exact ⟨hk, by simpa using hkp⟩
  unfold selectJob at h
  cases hL : (q.filter (fun j => j.status = JobStatus.pending)).mergeSort jobLE with
  | nil => rw [hL] at h; cases h
  | cons a t =>
    rw [hL] at h hs hkL
    simp only [List.head?] at h
    have haj : a = j := by injection h
    subst haj
    rcases List.mem_cons.mp hkL with h1 | h1
    · subst h1; exact Nat.le_refl _
    · have := (List.pairwise_cons.mp hs).1 k h1
      simpa [jobLE] using this

theorem selectJob_first {q : List QueueJob} {j : QueueJob}
    (hnd : (q.map QueueJob.id).Nodup) (h : selectJob q = some j) :
    ∀ k, [k, j].Sublist (q.filter (fun j => j.status = JobStatus.pending)) →
      j.createdAt < k.createdAt := by
  intro k hsub
  by_contra hlt
  push_neg at hlt
  have hkj : jobLE k j = true := by simpa [jobLE] using hlt
  have hsub2 := List.pair_sublist_mergeSort jobLE_trans jobLE_total hkj hsub
  have hpnd : (q.filter (fun j => j.status = JobStatus.pending)).Nodup :=
    (List.filter_sublist q).nodup (List.Nodup.of_map _ hnd)
  have hLnd : ((q.filter (fun j => j.status = JobStatus.pending)).mergeSort jobLE).Nodup :=
    (List.mergeSort_perm _ jobLE).nodup_iff.mpr hpnd
  unfold selectJob at h
  cases hL : (q.filter (fun j => j.status = JobStatus.pending)).mergeSort jobLE with
  | nil => rw [hL] at h; cases h
  | cons a t =>
    rw [hL] at h hsub2 hLnd
    simp only [List.head?] at h
    have haj : a = j := by injection h
    subst haj
    have hat : a ∉ t := (List.nodup_cons.mp hLnd).1
    cases hsub2 with
    | cons _ h2 => exact hat (h2.subset (by simp))
    | cons₂ _ h2 => exact hat (h2.subset (by simp))

theorem attemptsOk_mkJob (i : Nat) (d : ScanJob) (t : Nat) : attemptsOk (mkJob i d t) := by
  refine ⟨by simp [mkJob], by simp [mkJob], by simp [mkJob], by simp [mkJob]⟩

theorem attemptsOk_set_processing {j : QueueJob} (hp : j.status = JobStatus.pending)
    (h : attemptsOk j) : attemptsOk { j with status := JobStatus.processing } := by
  obtain ⟨h1, _, h3, _⟩ := h
  have hlt := h3 hp
  exact ⟨h1, by simp; omega, by simp, by intro _; exact hlt⟩

theorem attemptsOk_set_completed {j : QueueJob} (hp : j.status = JobStatus.processing)
    (h : attemptsOk j) : attemptsOk { j with status := JobStatus.completed } := by
  obtain ⟨h1, _, _, h4⟩ := h
  have hlt := h4 hp
  exact ⟨h1, by simp; omega, by simp, by simp⟩

theorem attemptsOk_retry {j : QueueJob} (hlt : j.attempts + 1 < 3) :
    attemptsOk { j with attempts := j.attempts + 1, status := JobStatus.pending } := by
  exact ⟨by simp; omega, by simp; omega, by intro _; simpa using hlt, by simp⟩

theorem attemptsOk_fail {j : QueueJob} (hp : j.status = JobStatus.processing)
    (h : attemptsOk j) (hge : 3 ≤ j.attempts + 1) :
    attemptsOk { j with attempts := j.attempts + 1, status := JobStatus.failed } := by
  obtain ⟨h1, _, _, h4⟩ := h
  have hlt := h4 hp
  exact ⟨by simp; omega, by simp; omega, by simp, by simp⟩

theorem schedInv_init : SchedInv schedInit := by
  refine ⟨by simp [schedInit], by simp [schedInit], ?_, ?_⟩
  · intro i h
    simp [schedInit] at h
  · intro _ j hj
    simp [schedInit] at hj

theorem schedInv_step {s t : SchedState} (hInv : SchedInv s) (hst : SchedStep s t) :
    SchedInv t := by
  obtain ⟨hnd, hao, hpo⟩ := hInv
  cases hst with
  | addIdle i d tm hpc hfresh =>
    refine ⟨?_, ?_, ?_, ?_⟩
    · simp only [List.map_append, List.map_cons, List.map_nil]
      rw [List.nodup_append]
      refine ⟨hnd, by simp, ?_⟩
      intro a ha
      obtain ⟨k, hk, rfl⟩ := List.mem_map.mp ha
      simp only [List.mem_singleton, mkJob]
      exact hfresh k hk
    · intro j hj
      rcases List.mem_append.mp hj with h | h
      · exact hao j h
      · rw [List.mem_singleton.mp h]
        exact attemptsOk_mkJob i d tm
    · intro i0 h
      simp at h
    · intro _ j hj
      rcases List.mem_append.mp hj with h | h
      · exact hpo.2 (fun i0 => by simp [hpc]) j h
      · rw [List.mem_singleton.mp h]
        simp [mkJob]
  | addBusy i d tm hpc hfresh =>
    refine ⟨?_, ?_, ?_, ?_⟩
    · simp only [List.map_append, List.map_cons, List.map_nil]
      rw [List.nodup_append]
      refine ⟨hnd, by simp, ?_⟩
      intro a ha
      obtain ⟨k, hk, rfl⟩ := List.mem_map.mp ha
      simp only [List.mem_singleton, mkJob]
      exact hfresh k hk
    · intro j hj
      rcases List.mem_append.mp hj with h | h
      · exact hao j h
      · rw [List.mem_singleton.mp h]
        exact attemptsOk_mkJob i d tm
    · intro i0 hpc0
      have hold := hpo.1 i0 hpc0
      refine ⟨?_, ?_⟩
      · obtain ⟨j0, hj0, hid0⟩ := hold.1
        exact ⟨j0, List.mem_append.mpr (Or.inl hj0), hid0⟩
      · intro j hj
        rcases List.mem_append.mp hj with h | h
        · exact hold.2 j h
        · rw [List.mem_singleton.mp h]
          obtain ⟨j0, hj0, hid0⟩ := hold.1
          have hne : i ≠ i0 := fun he => hfresh j0 hj0 (hid0.trans he.symm)
          simp [mkJob, hne]
    · intro hne j hj
      rcases List.mem_append.mp hj with h | h
      · exact hpo.2 hne j h
      · rw [List.mem_singleton.mp h]
        simp [mkJob]
  | pick j hpc hsel =>
    obtain ⟨hjq, hjp⟩ := selectJob_mem hsel
    refine ⟨?_, ?_, ?_, ?_⟩
    · rw [show (setJob s.queue j.id fun k => { k with status := JobStatus.processing }).map QueueJob.id
        = s.queue.map QueueJob.id from setJob_map_id _ _ _ (fun _ => rfl)]
      exact hnd
    · intro k' hk'
      simp only [setJob] at hk'
      obtain ⟨k, hk, hkeq⟩ := List.mem_map.mp hk'
      by_cases hki : k.id = j.id
      · obtain rfl : k = j := job_eq_of_id_eq hnd hk hjq hki
        rw [← hkeq, if_pos hki]
        exact attemptsOk_set_processing hjp (hao k hk)
      · rw [← hkeq, if_neg hki]
        exact hao k hk
    · intro i0 hpc0
      have hij : j.id = i0 := by
        have : SchedPC.executing j.id = SchedPC.executing i0 := hpc0
        injection this
      subst hij
      refine ⟨?_, ?_⟩
      · exact ⟨{ j with status := JobStatus.processing },
          List.mem_map.mpr ⟨j, hjq, by rw [if_pos rfl]⟩, rfl⟩
      · intro k' hk'
        simp only [setJob] at hk'
        obtain ⟨k, hk, hkeq⟩ := List.mem_map.mp hk'
        by_cases hki : k.id = j.id
        · rw [← hkeq, if_pos hki]
          simp [hki]
        · rw [← hkeq, if_neg hki]
          have hnp := hpo.2 (fun i0 => by simp [hpc]) k hk
          exact iff_of_false hnp hki
    · intro hne
      exact absurd rfl (hne j.id)
  | exitLoop hpc hsel =>
    refine ⟨hnd, hao, ?_, ?_⟩
    · intro i0 h
      simp at h
    · intro _ j hj
      exact hpo.2 (fun i0 => by simp [hpc]) j hj
  | succeed i hpc =>
    have he := hpo.1 i hpc
    refine ⟨?_, ?_, ?_, ?_⟩
    · rw [show (setJob s.queue i fun k => { k with status := JobStatus.completed }).map QueueJob.id
        = s.queue.map QueueJob.id from setJob_map_id _ _ _ (fun _ => rfl)]
      exact hnd
    · intro k' hk'
      simp only [setJob] at hk'
      obtain ⟨k, hk, hkeq⟩ := List.mem_map.mp hk'
      by_cases hki : k.id = i
      · rw [← hkeq, if_pos hki]
        exact attemptsOk_set_completed ((he.2 k hk).mpr hki) (hao k hk)
      · rw [← hkeq, if_neg hki]
        exact hao k hk
    · intro i0 h
      simp at h
    · intro _ k' hk'
      simp only [setJob] at hk'
      obtain ⟨k, hk, hkeq⟩ := List.mem_map.mp hk'
      by_cases hki : k.id = i
      · rw [← hkeq, if_pos hki]
        simp
      · rw [← hkeq, if_neg hki]
        exact fun hc => hki ((he.2 k hk).mp hc)
  | failRetry i j0 hpc hfind hlt =>
    have he := hpo.1 i hpc
    obtain ⟨hj0q, hj0i⟩ := findJob_mem hfind
    refine ⟨?_, ?_, ?_, ?_⟩
    · rw [show (setJob s.queue i fun k =>
          { k with attempts := k.attempts + 1, status := JobStatus.pending }).map QueueJob.id
        = s.queue.map QueueJob.id from setJob_map_id _ _ _ (fun _ => rfl)]
      exact hnd
    · intro k' hk'
      simp only [setJob] at hk'
      obtain ⟨k, hk, hkeq⟩ := List.mem_map.mp hk'
      by_cases hki : k.id = i
      · obtain rfl : k = j0 := job_eq_of_id_eq hnd hk hj0q (hki.trans hj0i.symm)
        rw [← hkeq, if_pos hki]
        exact attemptsOk_retry hlt
      · rw [← hkeq, if_neg hki]
        exact hao k hk
    · intro i0 h
      simp at h
    · intro _ k' hk'
      simp only [setJob] at hk'
      obtain ⟨k, hk, hkeq⟩ := List.mem_map.mp hk'
      by_cases hki : k.id = i
      · rw [← hkeq, if_pos hki]
        simp
      · rw [← hkeq, if_neg hki]
        exact fun hc => hki ((he.2 k hk).mp hc)
  | failFinal i j0 hpc hfind hge =>
    have he := hpo.1 i hpc
    obtain ⟨hj0q, hj0i⟩ := findJob_mem hfind
    refine ⟨?_, ?_, ?_, ?_⟩
    · rw [show (setJob s.queue i fun k =>
          { k with attempts := k.attempts + 1, status := JobStatus.failed }).map QueueJob.id
        = s.queue.map QueueJob.id from setJob_map_id _ _ _ (fun _ => rfl)]
      exact hnd
    · intro k' hk'
      simp only [setJob] at hk'
      obtain ⟨k, hk, hkeq⟩ := List.mem_map.mp hk'
      by_cases hki : k.id = i
      · obtain rfl : k = j0 := job_eq_of_id_eq hnd hk hj0q (hki.trans hj0i.symm)
        rw [← hkeq, if_pos hki]
        exact attemptsOk_fail ((he.2 k hk).mpr hki) (hao k hk) hge
      · rw [← hkeq, if_neg hki]
        exact hao k hk
    · intro i0 h
      simp at h
    · intro _ k' hk'
      simp only [setJob] at hk'
      obtain ⟨k, hk, hkeq⟩ := List.mem_map.mp hk'
      by_cases hki : k.id = i
      · rw [← hkeq, if_pos hki]
        simp
      · rw [← hkeq, if_neg hki]
        exact fun hc => hki ((he.2 k hk).mp hc)
  | retryDone hpc =>
    refine ⟨hnd, hao, ?_, ?_⟩
    · intro i0 h
      simp at h
    · intro _ j hj
      exact hpo.2 (fun i0 => by simp [hpc]) j hj
  | evict i j0 hfind hterm =>
    obtain ⟨hj0q, hj0i⟩ := findJob_mem hfind
    refine ⟨?_, ?_, ?_, ?_⟩
    · exact ((List.filter_sublist s.queue).map QueueJob.id).nodup hnd
    · intro j hj
      exact hao j (List.mem_filter.mp hj).1
    · intro i0 hpc0
      have he := hpo.1 i0 hpc0
      have hi0ne : i ≠ i0 := by
        intro heq
        have hproc := (he.2 j0 hj0q).mpr (hj0i.trans heq)
        rcases hterm with h | h <;> rw [h] at hproc <;> cases hproc
      refine ⟨?_, ?_⟩
      · obtain ⟨j1, hj1, hid1⟩ := he.1
        refine ⟨j1, ?_, hid1⟩
        rw [List.mem_filter]
        refine ⟨hj1, ?_⟩
        simp only [decide_eq_true_eq]
        intro hh
        exact hi0ne (hh.symm.trans hid1)
      · intro k hk
        exact he.2 k (List.mem_filter.mp hk).1
    · intro hne j hj
      exact hpo.2 hne j (List.mem_filter.mp hj).1

theorem schedReachable_inv {s : SchedState} (hs : SchedReachable s) : SchedInv s := by
  induction hs with
  | init => exact schedInv_init
  | step _ hst ih => exact schedInv_step ih hst

theorem countProc_le_one (q : List QueueJob) (i : Nat)
    (hnd : (q.map QueueJob.id).Nodup)
    (h : ∀ j ∈ q, j.status = JobStatus.processing → j.id = i) :
    (q.filter (fun j => j.status = JobStatus.processing)).length ≤ 1 := by
  induction q with
  | nil => simp
  | cons a q ih =>
    simp only [List.map_cons, List.nodup_cons] at hnd
    by_cases ha : a.status = JobStatus.processing
    · have hai : a.id = i := h a (List.mem_cons_self a q) ha
      have hq : q.filter (fun j => j.status = JobStatus.processing) = [] := by
        rw [List.filter_eq_nil_iff]
        intro k hk
        simp only [decide_eq_true_eq]
        intro hkp
        have hki : k.id ∈ q.map QueueJob.id := List.mem_map_of_mem _ hk
        rw [h k (List.mem_cons_of_mem a hk) hkp, ← hai] at hki
        exact hnd.1 hki
      simp [List.filter_cons, ha, hq]
    · simp only [List.filter_cons, ha, decide_eq_true_eq, if_false, reduceIte]
      exact ih hnd.2 (fun j hj hp => h j (List.mem_cons_of_mem a hj) hp)

/-- C1: in every reachable scheduler state, under every interleaving of
submissions with the processing loop, at most one job has status
`processing`: each `getQueueStats` snapshot has a `processing` count of 0
or 1 (single-flight). -/
theorem sched_single_flight (s : SchedState) (hs : SchedReachable s) :
    (getQueueStats s.queue).processing = 0 ∨ (getQueueStats s.queue).processing = 1 := by
  obtain ⟨hnd, _, hpo⟩ := schedReachable_inv hs
  have hle : (s.queue.filter (fun j => j.status = JobStatus.processing)).length ≤ 1 := by
    by_cases hex : ∃ i, s.pc = SchedPC.executing i
    · obtain ⟨i, hpc⟩ := hex
      exact countProc_le_one s.queue i hnd (fun j hj hp => ((hpo.1 i hpc).2 j hj).mp hp)
    · have hz := hpo.2 (fun i0 h => hex ⟨i0, h⟩)
      have hemp : s.queue.filter (fun j => j.status = JobStatus.processing) = [] := by
        rw [List.filter_eq_nil_iff]
        intro j hj
        simpa using hz j hj
      simp [hemp]
  simp only [getQueueStats]
  omega

/-- Witness for C1: a concrete reachable state with one job mid-execution. -/
theorem sched_single_flight_witness :
    (getQueueStats [{ jobA with status := JobStatus.processing }]).processing = 0 ∨
    (getQueueStats [{ jobA with status := JobStatus.processing }]).processing = 1 := by
  have h1 : SchedStep schedInit { queue := [jobA], pc := SchedPC.loopTop } := by
    have h := SchedStep.addIdle schedInit 1 { sessionId := "s1", url := "https://example.com" } 5
      rfl (by simp [schedInit])
    simpa [schedInit, jobA] using h
  have hsel : selectJob [jobA] = some jobA := by
    simp [selectJob, jobA, mkJob, List.mergeSort_singleton]
  have h2 : SchedStep { queue := [jobA], pc := SchedPC.loopTop }
      { queue := [{ jobA with status := JobStatus.processing }], pc := SchedPC.executing 1 } := by
    have h := SchedStep.pick { queue := [jobA], pc := SchedPC.loopTop } jobA rfl hsel
    simpa [setJob, jobA, mkJob] using h
  exact sched_single_flight
    { queue := [{ jobA with status := JobStatus.processing }], pc := SchedPC.executing 1 }
    (SchedReachable.step (SchedReachable.step SchedReachable.init h1) h2)

/-- C4: in every reachable scheduler state the attempts counter of every job
is at most 3 and the job is `failed` exactly when the counter is 3; across
any further step, a job still in the queue never sees its counter decrease,
and a `failed` job stays `failed` (so reaching 3 attempts is permanent). -/
theorem sched_attempts_lifecycle (s t : SchedState) (hs : SchedReachable s)
    (hst : SchedStep s t) :
    (∀ j ∈ s.queue, j.attempts ≤ 3 ∧ (j.status = JobStatus.failed ↔ j.attempts = 3)) ∧
    (∀ j ∈ s.queue, ∀ j' ∈ t.queue, j.id = j'.id →
      j.attempts ≤ j'.attempts ∧ (j.status = JobStatus.failed → j'.status = JobStatus.failed)) := by
  obtain ⟨hnd, hao, hpo⟩ := schedReachable_inv hs
  constructor
  · intro j hj
    exact ⟨(hao j hj).1, (hao j hj).2.1⟩
  · intro j hj j' hj' hid
    cases hst with
    | addIdle i d tm hpc hfresh =>
      rcases List.mem_append.mp hj' with h | h
      · obtain rfl : j = j' := job_eq_of_id_eq hnd hj h hid
        exact ⟨Nat.le_refl _, id⟩
      · rw [List.mem_singleton.mp h] at hid
        simp only [mkJob] at hid
        exact absurd hid (hfresh j hj)
    | addBusy i d tm hpc hfresh =>
      rcases List.mem_append.mp hj' with h | h
      · obtain rfl : j = j' := job_eq_of_id_eq hnd hj h hid
        exact ⟨Nat.le_refl _, id⟩
      · rw [List.mem_singleton.mp h] at hid
        simp only [mkJob] at hid
        exact absurd hid (hfresh j hj)
    | pick j0 hpc hsel =>
      obtain ⟨hj0q, hj0p⟩ := selectJob_mem hsel
      simp only [setJob] at hj'
      obtain ⟨k, hk, rfl⟩ := List.mem_map.mp hj'
      by_cases hki : k.id = j0.id
      · simp only [if_pos hki] at hid ⊢
        obtain rfl : j = k := job_eq_of_id_eq hnd hj hk (by simpa using hid)
        refine ⟨Nat.le_refl _, ?_⟩
        intro hf
        obtain rfl : j = j0 := job_eq_of_id_eq hnd hj hj0q hki
        rw [hj0p] at hf
        cases hf
      · simp only [if_neg hki] at hid ⊢
        obtain rfl : j = k := job_eq_of_id_eq hnd hj hk hid
        exact ⟨Nat.le_refl _, id⟩
    | exitLoop hpc hsel =>
      obtain rfl : j = j' := job_eq_of_id_eq hnd hj hj' hid
      exact ⟨Nat.le_refl _, id⟩
    | succeed i hpc =>
      have he := hpo.1 i hpc
      simp only [setJob] at hj'
      obtain ⟨k, hk, rfl⟩ := List.mem_map.mp hj'
      by_cases hki : k.id = i
      · simp only [if_pos hki] at hid ⊢
        obtain rfl : j = k := job_eq_of_id_eq hnd hj hk (by simpa using hid)
        refine ⟨Nat.le_refl _, ?_⟩
        intro hf
        rw [(he.2 j hj).mpr hki] at hf
        cases hf
      · simp only [if_neg hki] at hid ⊢
        obtain rfl : j = k := job_eq_of_id_eq hnd hj hk hid
        exact ⟨Nat.le_refl _, id⟩
    | failRetry i j0 hpc hfind hlt =>
      have he := hpo.1 i hpc
      simp only [setJob] at hj'
      obtain ⟨k, hk, rfl⟩ := List.mem_map.mp hj'
      by_cases hki : k.id = i
      · simp only [if_pos hki] at hid ⊢
        obtain rfl : j = k := job_eq_of_id_eq hnd hj hk (by simpa using hid)
        refine ⟨Nat.le_succ _, ?_⟩
        intro hf
        rw [(he.2 j hj).mpr hki] at hf
        cases hf
      · simp only [if_neg hki] at hid ⊢
        obtain rfl : j = k := job_eq_of_id_eq hnd hj hk hid
        exact ⟨Nat.le_refl _, id⟩
    | failFinal i j0 hpc hfind hge =>
      simp only [setJob] at hj'
      obtain ⟨k, hk, rfl⟩ := List.mem_map.mp hj'
      by_cases hki : k.id = i
      · simp only [if_pos hki] at hid ⊢
        obtain rfl : j = k := job_eq_of_id_eq hnd hj hk (by simpa using hid)
        exact ⟨Nat.le_succ _, fun _ => trivial⟩
      · simp only [if_neg hki] at hid ⊢
        obtain rfl : j = k := job_eq_of_id_eq hnd hj hk hid
        exact ⟨Nat.le_refl _, id⟩
    | retryDone hpc =>
      obtain rfl : j = j' := job_eq_of_id_eq hnd hj hj' hid
      exact ⟨Nat.le_refl _, id⟩
    | evict i j0 hfind hterm =>
      obtain rfl : j = j' := job_eq_of_id_eq hnd hj (List.mem_filter.mp hj').1 hid
      exact ⟨Nat.le_refl _, id⟩

/-- Witness for C4: the bounds evaluated on a concrete job of a concrete
reachable state, across a concrete retry step. -/
theorem sched_attempts_lifecycle_witness :
    ({ jobA with status := JobStatus.processing } : QueueJob).attempts ≤ 3 ∧
    (({ jobA with status := JobStatus.processing } : QueueJob).status = JobStatus.failed ↔
      ({ jobA with status := JobStatus.processing } : QueueJob).attempts = 3) := by
  have h1 : SchedStep schedInit { queue := [jobA], pc := SchedPC.loopTop } := by
    have h := SchedStep.addIdle schedInit 1 { sessionId := "s1", url := "https://example.com" } 5
      rfl (by simp [schedInit])
    simpa [schedInit, jobA] using h
  have hsel : selectJob [jobA] = some jobA := by
    simp [selectJob, jobA, mkJob, List.mergeSort_singleton]
  have h2 : SchedStep { queue := [jobA], pc := SchedPC.loopTop }
      { queue := [{ jobA with status := JobStatus.processing }], pc := SchedPC.executing 1 } := by
    have h := SchedStep.pick { queue := [jobA], pc := SchedPC.loopTop } jobA rfl hsel
    simpa [setJob, jobA, mkJob] using h
  have hfind : findJob [{ jobA with status := JobStatus.processing }] 1 =
      some { jobA with status := JobStatus.processing } := by
    simp [findJob, jobA, mkJob]
  have h3 : SchedStep
      { queue := [{ jobA with status := JobStatus.processing }], pc := SchedPC.executing 1 }
      { queue := [{ jobA with attempts := 1, status := JobStatus.pending }]
        pc := SchedPC.waitingRetry } := by
    have h := SchedStep.failRetry
      { queue := [{ jobA with status := JobStatus.processing }], pc := SchedPC.executing 1 }
      1 { jobA with status := JobStatus.processing } rfl hfind (by simp [jobA, mkJob])
    simpa [setJob, jobA, mkJob] using h
  exact (sched_attempts_lifecycle
    { queue := [{ jobA with status := JobStatus.processing }], pc := SchedPC.executing 1 }
    { queue := [{ jobA with attempts := 1, status := JobStatus.pending }]
      pc := SchedPC.waitingRetry }
    (SchedReachable.step (SchedReachable.step SchedReachable.init h1) h2) h3).1
    { jobA with status := JobStatus.processing } (List.mem_cons_self _ _)

/-- C8: whenever the loop at its top selects a job in a reachable state, the
selected job is pending, has the minimal `createdAt` among pending jobs, is
the earliest-inserted among pending jobs tied at that `createdAt` (every
pending job strictly before it in insertion order has a strictly later
`createdAt`), and the resulting transition marks exactly that job
`processing` while entering the execution of its crawl. -/
theorem sched_pick_earliest (s : SchedState) (j : QueueJob) (hs : SchedReachable s)
    (hpc : s.pc = SchedPC.loopTop) (hsel : selectJob s.queue = some j) :
    j ∈ s.queue ∧ j.status = JobStatus.pending
    ∧ (∀ k ∈ s.queue, k.status = JobStatus.pending → j.createdAt ≤ k.createdAt)
    ∧ (∀ k, [k, j].Sublist (s.queue.filter (fun j0 => j0.status = JobStatus.pending)) →
        j.createdAt < k.createdAt)
    ∧ SchedStep s { queue := setJob s.queue j.id (fun k => { k with status := JobStatus.processing })
                    pc := SchedPC.executing j.id }
    ∧ (∀ j' ∈ setJob s.queue j.id (fun k => { k with status := JobStatus.processing }),
        j'.id = j.id → j'.status = JobStatus.processing) := by
  obtain ⟨hnd, _, _⟩ := schedReachable_inv hs
  obtain ⟨hjq, hjp⟩ := selectJob_mem hsel
  refine ⟨hjq, hjp, selectJob_min hsel, selectJob_first hnd hsel,
    SchedStep.pick s j hpc hsel, ?_⟩
  intro j' hj' hid
  simp only [setJob] at hj'
  obtain ⟨k, hk, rfl⟩ := List.mem_map.mp hj'
  by_cases hki : k.id = j.id
  · simp [if_pos hki]
  · simp only [if_neg hki] at hid ⊢
    exact absurd hid hki

/-- Witness for C8: the selection evaluated in a concrete reachable state
with one pending job. -/
theorem sched_pick_earliest_witness :
    jobA ∈ ({ queue := [jobA], pc := SchedPC.loopTop } : SchedState).queue ∧
    jobA.status = JobStatus.pending := by
  have h1 : SchedStep schedInit { queue := [jobA], pc := SchedPC.loopTop } := by
    have h := SchedStep.addIdle schedInit 1 { sessionId := "s1", url := "https://example.com" } 5
      rfl (by simp [schedInit])
    simpa [schedInit, jobA] using h
  have hsel : selectJob [jobA] = some jobA := by
    simp [selectJob, jobA, mkJob, List.mergeSort_singleton]
  have h := sched_pick_earliest { queue := [jobA], pc := SchedPC.loopTop } jobA
    (SchedReachable.step SchedReachable.init h1) rfl hsel
  exact ⟨h.1, h.2.1⟩

/-- C10: every job status is one of the four constructors, so each
`getQueueStats` snapshot satisfies
`total = pending + processing + completed + failed`. -/
theorem queue_stats_partition (q : List QueueJob) :
    (getQueueStats q).total =
      (getQueueStats q).pending + (getQueueStats q).processing +
      (getQueueStats q).completed + (getQueueStats q).failed := by
  simp only [getQueueStats]
  induction q with
  | nil => rfl
  | cons a q ih =>
    simp only [List.filter_cons, List.length_cons]
    cases ha : a.status <;> simp [ha] <;> omega

/-! ## Crawler lemmas -/

theorem childFold_preserve {P : CrawlState → Prop} (visit : String → CrawlState → CrawlState)
    (hv : ∀ l s, P s → P (visit l s)) :
    ∀ (links : List String) (st : CrawlState), P st → P (childFold visit links st) := by
  intro links
  induction links with
  | nil =>
    intro st h
    simpa [childFold] using h
  | cons l ls ih =>
    intro st h
    have hstep : P (if st.data.pagesProcessed < maxPages then visit l st else st) := by
      split
      · exact hv l st h
      · exact h
    simpa [childFold, List.foldl_cons] using ih _ hstep

theorem scanPage_preserve {P : CrawlState → Prop} (render : String → Except String PageData)
    (hsucc : ∀ url pd st, url ∉ st.visited → P st →
      P (recordSuccess url pd { st with visited := url :: st.visited }))
    (hfail : ∀ url reason st, url ∉ st.visited → P st →
      P (recordFailure url reason { st with visited := url :: st.visited })) :
    ∀ (fuel : Nat) (url : String) (depth : Nat) (st : CrawlState),
      P st → P (scanPage render fuel url depth st) := by
  intro fuel
  induction fuel with
  | zero =>
    intro url depth st h
    simpa [scanPage] using h
  | succ fuel ih =>
    intro url depth st h
    simp only [scanPage]
    split
    · exact h
    · rename_i hguard
      have hnv : url ∉ st.visited := fun hm => hguard (Or.inl hm)
      split
      · rename_i reason hre
        exact hfail url reason st hnv h
      · rename_i pd hre
        have h2 := hsucc url pd st hnv h
        split
        · exact childFold_preserve _ (fun l s hs => ih l (depth + 1) s hs) _ _ h2
        · exact h2

theorem recordUrls_success (url : String) (pd : PageData) (st : CrawlState) :
    recordUrls (recordSuccess url pd st).data =
      st.data.pages.map PageRecord.url ++ url :: st.data.errors.map ScanError.url := by
  simp [recordUrls, recordSuccess, mkPageRecord]

theorem recordUrls_failure (url reason : String) (st : CrawlState) :
    recordUrls (recordFailure url reason st).data =
      (st.data.pages.map PageRecord.url ++ st.data.errors.map ScanError.url) ++ [url] := by
  simp [recordUrls, recordFailure]

theorem scanPage_nodup (render : String → Except String PageData)
    (fuel : Nat) (url : String) (depth : Nat) (st : CrawlState)
    (h1 : (recordUrls st.data).Nodup)
    (h2 : ∀ u ∈ recordUrls st.data, u ∈ st.visited) :
    (recordUrls (scanPage render fuel url depth st).data).Nodup ∧
    ∀ u ∈ recordUrls (scanPage render fuel url depth st).data,
      u ∈ (scanPage render fuel url depth st).visited := by
  refine scanPage_preserve (P := fun s => (recordUrls s.data).Nodup ∧
      ∀ u ∈ recordUrls s.data, u ∈ s.visited) render ?_ ?_ fuel url depth st ⟨h1, h2⟩
  · intro u pd s hnv hP
    obtain ⟨hnd, hsub⟩ := hP
    have hperm : recordUrls (recordSuccess u pd { s with visited := u :: s.visited }).data
        |>.Perm (u :: recordUrls s.data) := by
      rw [recordUrls_success]
      exact List.perm_middle
    have hmem : u ∉ recordUrls s.data := fun hm => hnv (hsub u hm)
    constructor
    · rw [hperm.nodup_iff]
      exact List.nodup_cons.mpr ⟨hmem, hnd⟩
    · intro v hv
      have hv2 : v ∈ u :: recordUrls s.data := hperm.subset hv
      rcases List.mem_cons.mp hv2 with h | h
      · rw [h]
        exact List.mem_cons_self _ _
      · exact List.mem_cons_of_mem _ (hsub v h)
  · intro u reason s hnv hP
    obtain ⟨hnd, hsub⟩ := hP
    have hperm : recordUrls (recordFailure u reason { s with visited := u :: s.visited }).data
        |>.Perm (u :: recordUrls s.data) := by
      rw [recordUrls_failure]
      exact List.perm_append_comm.trans (by rfl)
    have hmem : u ∉ recordUrls s.data := fun hm => hnv (hsub u hm)
    constructor
    · rw [hperm.nodup_iff]
      exact List.nodup_cons.mpr ⟨hmem, hnd⟩
    · intro v hv
      have hv2 : v ∈ u :: recordUrls s.data := hperm.subset hv
      rcases List.mem_cons.mp hv2 with h | h
      · rw [h]
        exact List.mem_cons_self _ _
      · exact List.mem_cons_of_mem _ (hsub v h)

/-- C2: for every behaviour of the rendering collaborator and every seed, no
URL appears twice in the final aggregate's `pages`, and no URL appears more
than once across `pages` and `errors` combined. -/
theorem crawl_no_duplicate_urls (render : String → Except String PageData) (url : String) :
    ((scanWebsite render url).pages.map PageRecord.url).Nodup ∧
    ((scanWebsite render url).pages.map PageRecord.url ++
      (scanWebsite render url).errors.map ScanError.url).Nodup := by
  have h := scanPage_nodup render 3 url 0 crawlInit
    (by simp [recordUrls, crawlInit, initialScanData])
    (by simp [recordUrls, crawlInit, initialScanData])
  have hall : ((scanWebsite render url).pages.map PageRecord.url ++
      (scanWebsite render url).errors.map ScanError.url).Nodup := h.1
  exact ⟨(List.nodup_append.mp hall).1, hall⟩

theorem scanPage_counts (render : String → Except String PageData)
    (fuel : Nat) (url : String) (depth : Nat) (st : CrawlState)
    (h : st.data.pagesProcessed = st.data.pages.length ∧
      st.data.pagesSkipped = st.data.errors.length ∧
      st.data.pagesProcessed + st.data.pagesSkipped = st.visited.length) :
    (scanPage render fuel url depth st).data.pagesProcessed =
      (scanPage render fuel url depth st).data.pages.length ∧
    (scanPage render fuel url depth st).data.pagesSkipped =
      (scanPage render fuel url depth st).data.errors.length ∧
    (scanPage render fuel url depth st).data.pagesProcessed +
      (scanPage render fuel url depth st).data.pagesSkipped =
      (scanPage render fuel url depth st).visited.length := by
  refine scanPage_preserve (P := fun s => s.data.pagesProcessed = s.data.pages.length ∧
      s.data.pagesSkipped = s.data.errors.length ∧
      s.data.pagesProcessed + s.data.pagesSkipped = s.visited.length)
    render ?_ ?_ fuel url depth st h
  · intro u pd s _ hP
    obtain ⟨a, b, c⟩ := hP
    refine ⟨?_, ?_, ?_⟩ <;> simp [recordSuccess, mkPageRecord] <;> omega
  · intro u reason s _ hP
    obtain ⟨a, b, c⟩ := hP
    refine ⟨?_, ?_, ?_⟩ <;> simp [recordFailure] <;> omega

theorem childFold_growth (visit : String → CrawlState → CrawlState) (B : Nat)
    (hv : ∀ l s, (visit l s).visited.length ≤ s.visited.length + B) :
    ∀ (links : List String) (st : CrawlState),
      (childFold visit links st).visited.length ≤ st.visited.length + links.length * B := by
  intro links
  induction links with
  | nil => intro st; simp [childFold]
  | cons l ls ih =>
    intro st
    have hstep : (if st.data.pagesProcessed < maxPages then visit l st else st).visited.length ≤
        st.visited.length + B := by
      split
      · exact hv l st
      · omega
    have hrec := ih (if st.data.pagesProcessed < maxPages then visit l st else st)
    have hgoal : (childFold visit (l :: ls) st) =
        childFold visit ls (if st.data.pagesProcessed < maxPages then visit l st else st) := by
      simp [childFold, List.foldl_cons]
    rw [hgoal, List.length_cons, Nat.succ_mul]
    omega

theorem scanPage_growth (render : String → Except String PageData) :
    ∀ (fuel : Nat) (url : String) (depth : Nat) (st : CrawlState),
      (scanPage render fuel url depth st).visited.length ≤
        st.visited.length + visitBound fuel depth := by
  intro fuel
  induction fuel with
  | zero =>
    intro url depth st
    simp [scanPage, visitBound]
  | succ fuel ih =>
    intro url depth st
    simp only [scanPage]
    split
    · exact Nat.le_add_right _ _
    · split
      · rename_i reason hre
        simp only [recordFailure, List.length_cons, visitBound]
        split <;> omega
      · rename_i pd hre
        split
        · rename_i hcond
          have hb := childFold_growth (fun link s => scanPage render fuel link (depth + 1) s)
            (visitBound fuel (depth + 1)) (fun l s => ih l (depth + 1) s)
            (pd.internalLinks.take 5)
            (recordSuccess url pd { st with visited := url :: st.visited })
          have hlen : (pd.internalLinks.take 5).length ≤ 5 := List.length_take_le 5 pd.internalLinks
          have hmul : (pd.internalLinks.take 5).length * visitBound fuel (depth + 1) ≤
              5 * visitBound fuel (depth + 1) :=
            Nat.mul_le_mul_right _ hlen
          have hst2 : (recordSuccess url pd { st with visited := url :: st.visited }).visited.length
              = st.visited.length + 1 := by
            simp [recordSuccess]
          rw [show visitBound (fuel + 1) depth =
            1 + 5 * visitBound fuel (depth + 1) from by rw [visitBound, if_pos hcond.1]]
          omega
        · simp only [recordSuccess, List.length_cons, visitBound]
          split <;> omega

theorem childFold_sum_mono (visit : String → CrawlState → CrawlState)
    (hv : ∀ l s, s.data.pagesProcessed + s.data.pagesSkipped ≤
      (visit l s).data.pagesProcessed + (visit l s).data.pagesSkipped) :
    ∀ (links : List String) (st : CrawlState),
      st.data.pagesProcessed + st.data.pagesSkipped ≤
        (childFold visit links st).data.pagesProcessed +
        (childFold visit links st).data.pagesSkipped := by
  intro links
  induction links with
  | nil => intro st; simp [childFold]
  | cons l ls ih =>
    intro st
    have hstep : st.data.pagesProcessed + st.data.pagesSkipped ≤
        (if st.data.pagesProcessed < maxPages then visit l st else st).data.pagesProcessed +
        (if st.data.pagesProcessed < maxPages then visit l st else st).data.pagesSkipped := by
      split
      · exact hv l st
      · omega
    have hrec := ih (if st.data.pagesProcessed < maxPages then visit l st else st)
    have hgoal : (childFold visit (l :: ls) st) =
        childFold visit ls (if st.data.pagesProcessed < maxPages then visit l st else st) := by
      simp [childFold, List.foldl_cons]
    rw [hgoal]
    omega

theorem scanPage_sum_mono (render : String → Except String PageData) :
    ∀ (fuel : Nat) (url : String) (depth : Nat) (st : CrawlState),
      st.data.pagesProcessed + st.data.pagesSkipped ≤
        (scanPage render fuel url depth st).data.pagesProcessed +
        (scanPage render fuel url depth st).data.pagesSkipped := by
  intro fuel
  induction fuel with
  | zero =>
    intro url depth st
    simp [scanPage]
  | succ fuel ih =>
    intro url depth st
    simp only [scanPage]
    split
    · omega
    · split
      · rename_i reason hre
        simp only [recordFailure]
        omega
      · rename_i pd hre
        split
        · rename_i hcond
          have hm := childFold_sum_mono (fun link s => scanPage render fuel link (depth + 1) s)
            (fun l s => ih l (depth + 1) s) (pd.internalLinks.take 5)
            (recordSuccess url pd { st with visited := url :: st.visited })
          simp only [recordSuccess] at hm ⊢
          omega
        · simp only [recordSuccess]
          omega

/-- C3: for every behaviour of the rendering collaborator and every seed, the
final aggregate satisfies `pagesProcessed + pagesSkipped ≤ 50` and has at
most 50 records across `pages` and `errors`; moreover the counter sum never
decreases across any `scanPage` call, so the bound holds at every point of
the traversal. -/
theorem crawl_page_ceiling (render : String → Except String PageData) (url : String) :
    (scanWebsite render url).pagesProcessed + (scanWebsite render url).pagesSkipped ≤ 50 ∧
    (scanWebsite render url).pages.length + (scanWebsite render url).errors.length ≤ 50 ∧
    (∀ (fuel : Nat) (u : String) (depth : Nat) (st : CrawlState),
      st.data.pagesProcessed + st.data.pagesSkipped ≤
        (scanPage render fuel u depth st).data.pagesProcessed +
        (scanPage render fuel u depth st).data.pagesSkipped) := by
  have hc := scanPage_counts render 3 url 0 crawlInit
    (by simp [crawlInit, initialScanData])
  have hg := scanPage_growth render 3 url 0 crawlInit
  have hb : visitBound 3 0 = 31 := by decide
  have hinit : crawlInit.visited.length = 0 := by simp [crawlInit]
  obtain ⟨hp, hsk, hsum⟩ := hc
  refine ⟨?_, ?_, fun fuel u depth st => scanPage_sum_mono render fuel u depth st⟩
  · show (scanPage render 3 url 0 crawlInit).data.pagesProcessed +
      (scanPage render 3 url 0 crawlInit).data.pagesSkipped ≤ 50
    omega
  · show (scanPage render 3 url 0 crawlInit).data.pages.length +
      (scanPage render 3 url 0 crawlInit).data.errors.length ≤ 50
    omega

/-- C5: when the visit of a fresh URL under the ceilings throws, the crawler
appends exactly one `{url, reason}` entry to `errors`, increments
`pagesSkipped` by one, leaves `pages` unchanged, and the enclosing frontier
loop continues with the remaining links from the error-updated state. -/
theorem crawl_page_failure_nonfatal (render : String → Except String PageData)
    (fuel : Nat) (url : String) (depth : Nat) (st : CrawlState) (reason : String)
    (hre : render url = Except.error reason)
    (hguard : ¬(url ∈ st.visited ∨ 3 < depth ∨ maxPages ≤ st.data.pagesProcessed)) :
    scanPage render (fuel + 1) url depth st =
      recordFailure url reason { st with visited := url :: st.visited } ∧
    (scanPage render (fuel + 1) url depth st).data.errors =
      st.data.errors ++ [{ url := url, reason := reason }] ∧
    (scanPage render (fuel + 1) url depth st).data.pagesSkipped =
      st.data.pagesSkipped + 1 ∧
    (scanPage render (fuel + 1) url depth st).data.pages = st.data.pages ∧
    ∀ rest : List String,
      childFold (fun link s => scanPage render (fuel + 1) link depth s) (url :: rest) st =
      childFold (fun link s => scanPage render (fuel + 1) link depth s) rest
        (recordFailure url reason { st with visited := url :: st.visited }) := by
  have hmain : scanPage render (fuel + 1) url depth st =
      recordFailure url reason { st with visited := url :: st.visited } := by
    simp only [scanPage, if_neg hguard, hre]
  refine ⟨hmain, ?_, ?_, ?_, ?_⟩
  · rw [hmain]; simp [recordFailure]
  · rw [hmain]; simp [recordFailure]
  · rw [hmain]; simp [recordFailure]
  · intro rest
    have hlt : st.data.pagesProcessed < maxPages := by
      push_neg at hguard
      exact hguard.2.2
    simp only [childFold, List.foldl_cons]
    rw [if_pos hlt, hmain]

/-- Witness for C5: a navigation timeout on the seed visit, evaluated
concretely. -/
theorem crawl_page_failure_nonfatal_witness :
    renderFail "https://example.com" = Except.error "Navigation timeout" ∧
    scanPage renderFail 1 "https://example.com" 0 crawlInit =
      recordFailure "https://example.com" "Navigation timeout"
        { crawlInit with visited := "https://example.com" :: crawlInit.visited } ∧
    (scanPage renderFail 1 "https://example.com" 0 crawlInit).data.pagesSkipped =
      crawlInit.data.pagesSkipped + 1 := by
  have h := crawl_page_failure_nonfatal renderFail 0 "https://example.com" 0 crawlInit
    "Navigation timeout" rfl (by decide)
  exact ⟨rfl, h.1, h.2.2.1⟩

/-- C9: a successful visit expands links only when its own depth is below 2,
enqueueing at most the first 5 internal links at depth+1; at depth 2 or
deeper (in particular beyond 2) the visit adds its page record and expands
nothing. -/
theorem crawl_depth_fanout (render : String → Except String PageData)
    (fuel : Nat) (url : String) (depth : Nat) (st : CrawlState) (pd : PageData)
    (hre : render url = Except.ok pd)
    (hguard : ¬(url ∈ st.visited ∨ 3 < depth ∨ maxPages ≤ st.data.pagesProcessed)) :
    (2 ≤ depth → scanPage render (fuel + 1) url depth st =
      recordSuccess url pd { st with visited := url :: st.visited }) ∧
    (depth < 2 → scanPage render (fuel + 1) url depth st =
      childFold (fun link s => scanPage render fuel link (depth + 1) s)
        (pd.internalLinks.take 5)
        (recordSuccess url pd { st with visited := url :: st.visited })) ∧
    (pd.internalLinks.take 5).length ≤ 5 := by
  refine ⟨?_, ?_, List.length_take_le 5 pd.internalLinks⟩
  · intro hd
    have hcond : ¬(depth < 2 ∧ 0 < pd.internalLinks.length) :=
      fun hc => absurd hc.1 (Nat.not_lt.mpr hd)
    simp only [scanPage, if_neg hguard, hre, if_neg hcond]
  · intro hd
    by_cases hlen : 0 < pd.internalLinks.length
    · simp only [scanPage, if_neg hguard, hre, if_pos (And.intro hd hlen)]
    · have hnil : pd.internalLinks = [] :=
        List.eq_nil_of_length_eq_zero (by omega)
      have hcond : ¬(depth < 2 ∧ 0 < pd.internalLinks.length) := fun hc => hlen hc.2
      simp only [scanPage, if_neg hguard, hre, if_neg hcond, hnil]
      simp [childFold]

/-- Witness for C9: a successful visit at depth 2 adds its record and expands
no links. -/
theorem crawl_depth_fanout_witness :
    renderOk "https://example.com" = Except.ok pdPlain ∧
    scanPage renderOk 1 "https://example.com" 2 crawlInit =
      recordSuccess "https://example.com" pdPlain
        { crawlInit with visited := "https://example.com" :: crawlInit.visited } := by
  have h := crawl_depth_fanout renderOk 0 "https://example.com" 2 crawlInit pdPlain
    rfl (by decide)
  exact ⟨rfl, h.1 (by omega)⟩

theorem priority_if_congr (x y : Nat) (h : x = y) :
    (if 5 ≤ x then PriorityLevel.high
     else if 2 ≤ x then PriorityLevel.medium else PriorityLevel.low) =
    (if 5 ≤ y then PriorityLevel.high
     else if 2 ≤ y then PriorityLevel.medium else PriorityLevel.low) := by
  rw [h]

/-- C6: the computed priority coincides, for every page signal, with the
claim's scoring rule: +2 for an out-of-window or absent title, +2 for an
out-of-window or absent description, +3 without substantial content, +1
without H1, +1 per alt-less image capped at +2; `high` at score 5 or more,
`medium` at 2 or more, `low` otherwise. -/
theorem crawl_priority_scoring (pd : PageData) :
    calculatePriority pd = claimPriorityOf pd := by
  unfold calculatePriority claimPriorityOf claimPriorityScore
  by_cases h1 : pd.title = "" ∨ pd.title.length < 30 ∨ 60 < pd.title.length <;>
  by_cases h2 : pd.metaDescription = "" ∨ pd.metaDescription.length < 120 ∨
    160 < pd.metaDescription.length <;>
  by_cases h3 : pd.hasContent = true <;>
  by_cases h4 : pd.headings.h1 = [] <;>
  by_cases h5 : 0 < (pd.images.filter (fun img => img.currentAlt = "")).length <;>
  simp only [h1, h2, h3, h4, h5, List.length_eq_zero, if_true, if_false, List.length_nil,
    Bool.not_eq_true, if_pos, if_neg, ite_true, ite_false, Bool.false_eq_true,
    not_false_eq_true, not_true_eq_false] <;>
  first
  | rfl
  | (exact priority_if_congr _ _ (by omega))

set_option maxRecDepth 8192

/-- C7 counterexample: with an empty title and a 51-character first H1 the
code truncates the H1 to 50 characters and appends an ellipsis marker, not
the brand suffix the claim describes. -/
theorem title_claim_counterexample :
    (generateRecommendations pdLongH1).title ≠ claimOptimizedTitle pdLongH1 := by
  decide

/-- C7 as amended: the optimized title passes through inside [30,60]; for a
title shorter than 30 (or empty) it is synthesized from the first H1 — an H1
longer than 50 characters is truncated to 50 with an ellipsis marker
appended, otherwise the brand suffix is appended — or a generic fallback
without H1; a title longer than 60 is truncated to 57 plus an ellipsis
marker.  The page signals produced by the extractor have only nonempty H1
entries (`filter(Boolean)`), which the hypothesis reflects. -/
theorem title_optimization_amended (pd : PageData)
    (hh1 : ∀ s ∈ pd.headings.h1, 0 < s.length) :
    (generateRecommendations pd).title = amendedOptimizedTitle pd := by
  simp only [generateRecommendations, amendedOptimizedTitle]
  by_cases hwin : 30 ≤ pd.title.length ∧ pd.title.length ≤ 60
  · rw [if_pos hwin, if_neg (by omega : ¬(pd.title.length < 30 ∨ 60 < pd.title.length))]
  · rw [if_neg hwin, if_pos (by omega : pd.title.length < 30 ∨ 60 < pd.title.length)]
    unfold optimizeTitle
    by_cases hlt : pd.title.length < 30
    · rw [if_pos hlt, if_pos (Or.inr hlt)]
      cases hh : pd.headings.h1.head? with
      | none => rfl
      | some h =>
        have hpos : 0 < h.length :=
          hh1 h (List.mem_of_mem_head? (Option.mem_def.mpr hh))
        dsimp only
        rw [if_pos hpos]
    · have h60 : 60 < pd.title.length := by omega
      have hne : ¬(pd.title = "" ∨ pd.title.length < 30) := by
        rintro (he | hl)
        · rw [he] at h60
          exact absurd h60 (by decide)
        · exact hlt hl
      rw [if_neg hlt, if_neg hne, if_pos h60]

/-- Witness for the amended C7: a short title with a short H1 is optimized to
the H1 plus the brand suffix. -/
theorem title_optimization_amended_witness :
    (∀ s ∈ pdShortTitle.headings.h1, 0 < s.length) ∧
    (generateRecommendations pdShortTitle).title = amendedOptimizedTitle pdShortTitle :=
  ⟨by decide, title_optimization_amended pdShortTitle (by decide)⟩

/-- The fuel argument of `scanPage` is irrelevant above the link-expansion
ceiling: any two sufficient fuels compute the same traversal, so the fuel-0
cutoff is never reached from `scanWebsite` (which passes 3 at depth 0). -/
theorem scanPage_fuel_congr (render : String → Except String PageData) :
    ∀ (a b : Nat) (url : String) (depth : Nat) (st : CrawlState),
      2 - depth < a → 2 - depth < b →
      scanPage render a url depth st = scanPage render b url depth st := by
  intro a
  induction a with
  | zero =>
    intro b url depth st h1 h2
    exact absurd h1 (by omega)
  | succ a ih =>
    intro b url depth st h1 h2
    cases b with
    | zero => exact absurd h2 (by omega)
    | succ b =>
      simp only [scanPage]
      by_cases hg : url ∈ st.visited ∨ 3 < depth ∨ maxPages ≤ st.data.pagesProcessed
      · rw [if_pos hg, if_pos hg]
      · rw [if_neg hg, if_neg hg]
        cases hre : render url with
        | error reason => rfl
        | ok pd =>
          dsimp only
          by_cases hc : depth < 2 ∧ 0 < pd.internalLinks.length
          · rw [if_pos hc, if_pos hc]
            have hv : (fun link s => scanPage render a link (depth + 1) s)
                = (fun link s => scanPage render b link (depth + 1) s) := by
              funext l s
              exact ih b l (depth + 1) s (by omega) (by omega)
            rw [hv]
          · rw [if_neg hc, if_neg hc]
